import Mathlib

/-!
Verification development for the SlideCraft repository.

The TypeScript sources are shallowly embedded in Lean:
JavaScript strings become `List Char`, JavaScript objects used as
string-keyed maps become functions `String → Option α`, fallible
request handlers become functions into explicit response types, and
the React slide-template state (`currentSlide` with its two
`useEffect` reconciliation passes) becomes a pure function on `Nat`.

Parts of the running application are not present under `src/`
(the slide-array insert/delete handlers, the field-edit handler and
the image-placeholder resolver are only referenced there through the
`onAdd` / `onDelete` / `onEdit` callbacks of the templates); those
definitions are modelled from the specification and carry a
`Modelled from the spec:` doc comment.
-/

/-! ## Generic JavaScript string-operation embeddings (`List Char` level) -/

/-- Embeds a non-global anchored-prefix regex replace with the empty string,
`s.replace(/^pat/, '')`: if `p` is a prefix of `s`, drop it, else `s` unchanged. -/
def dropPrefixIfL (p s : List Char) : List Char :=
  if p.isPrefixOf s then s.drop p.length else s

/-- Embeds a non-global anchored-suffix regex replace with the empty string,
`s.replace(/pat$/, '')`: if `suf` is a suffix of `s`, drop it, else `s` unchanged. -/
def dropSuffixIfL (suf s : List Char) : List Char :=
  if suf.isSuffixOf s then s.take (s.length - suf.length) else s

/-- Embeds `String.prototype.trim` applied at the end of a string: removes the
maximal run of trailing whitespace. -/
def rstripWs : List Char → List Char
  | [] => []
  | a :: t =>
    if rstripWs t = [] then (if a.isWhitespace then [] else [a])
    else a :: rstripWs t

/-- Embeds `String.prototype.trim`: strips leading and trailing whitespace. -/
def jsTrimL (l : List Char) : List Char := rstripWs (l.dropWhile Char.isWhitespace)

/-! ## Generate endpoint — `src/app/api/generate/route.ts` -/

/-- Values produced by `JSON.parse`; the parser itself is an external
JavaScript builtin and is passed as a parameter where needed. -/
inductive Json where
  | null
  | bool (b : Bool)
  | num (n : Int)
  | str (s : String)
  | arr (xs : List Json)
  | obj (fields : List (String × Json))

/-- True when a parsed JSON value is an object with a `presentation` key; the
generate route never checks this (see the claim about schema validation). -/
def hasPresentationField : Json → Bool
  | .obj fs => fs.any (fun kv => kv.1 == "presentation")
  | _ => false

/-- Embeds the markdown-fence cleanup of `src/app/api/generate/route.ts`
(lines 62–67): branch on `startsWith('```json')` / `startsWith('```')`, then
apply the two anchored regex replaces of that branch. -/
def cleanGenerated (s : List Char) : List Char :=
  if ("```json".toList).isPrefixOf s then
    dropSuffixIfL ("\n```".toList) (dropPrefixIfL ("```json\n".toList) s)
  else if ("```".toList).isPrefixOf s then
    dropSuffixIfL ("\n```".toList) (dropPrefixIfL ("```\n".toList) s)
  else s

/-- Responses of the generate route: a JSON body returned with success, or an
error body with an HTTP status. -/
inductive GenResponse where
  | success (v : Json)
  | error (msg : String) (status : Nat)

/-- Embeds the `POST` handler of `src/app/api/generate/route.ts` after the
model call returned `modelText`: the missing-key guard, then
`response.text().trim()`, the fence cleanup, and `JSON.parse` (passed in as
`parse`); parse success returns the parsed value as the JSON response body,
parse failure returns the 500 error response of lines 74–77. -/
def generatePOST (parse : List Char → Option Json) (hasKey : Bool)
    (modelText : List Char) : GenResponse :=
  if hasKey then
    match parse (cleanGenerated (jsTrimL modelText)) with
    | some v => .success v
    | none => .error "Failed to generate valid presentation data" 500
  else
    .error "Gemini API key not configured. Please add GEMINI_API_KEY to .env.local" 500

/-! ## Scrape endpoint — `src/app/api/scrape/route.ts` -/

/-- Embeds `mainContent.replace(/\s+/g, ' ')` (line 76): every maximal run of
whitespace becomes a single space. -/
def collapseWs : List Char → List Char
  | [] => []
  | [a] => if a.isWhitespace then [' '] else [a]
  | a :: b :: r =>
    if a.isWhitespace then
      (if b.isWhitespace then collapseWs (b :: r) else ' ' :: collapseWs (b :: r))
    else a :: collapseWs (b :: r)

/-- Embeds the content post-processing of `src/app/api/scrape/route.ts`
(lines 75–78): collapse whitespace, trim, then `substring(0, 2000)`. -/
def scrapeContent (raw : List Char) : List Char :=
  (jsTrimL (collapseWs raw)).take 2000

/-- Holds when no two adjacent characters are both whitespace — the shape the
whitespace-collapse step gives a string. -/
def noTwoWs : List Char → Bool
  | a :: b :: r => (!(a.isWhitespace && b.isWhitespace)) && noTwoWs (b :: r)
  | _ => true

/-- Embeds the JavaScript truthiness test used by the `||` fallback chains of
the scrape route: `undefined` and the empty string are falsy. -/
def truthy : Option String → Option String
  | some s => if s = "" then none else some s
  | none => none

/-- Embeds the title extraction of `src/app/api/scrape/route.ts` (lines 38–42)
followed by `title.trim()` (line 81): `og` and `tw` are the `content`
attributes of the `og:title` / `twitter:title` meta tags as found by cheerio
(`none` when the tag is absent), `titleText` is `$('title').text()`. -/
def scrapeTitle (og tw : Option String) (titleText : String) : String :=
  String.mk (jsTrimL
    (match truthy og with
     | some s => s
     | none =>
       match truthy tw with
       | some s => s
       | none => if titleText = "" then "" else titleText).toList)

/-! ## Slide templates — `src/unnamed/part_004` (PresentationTemplates) -/

/-- Embeds the stabilised `currentSlide` reconciliation of
`MinimalistTemplate` (`src/unnamed/part_004` lines 539–553) after the slide
array changes length from `prevLen` to `newLen`: the first `useEffect` clamps
an out-of-range index to the last slide, the second (`Auto-navigate to new
slide`) jumps to the last slide whenever the slide count grew. -/
def reactCurrent (prevLen newLen cur : Nat) : Nat :=
  let clamped := if newLen ≤ cur ∧ 0 < newLen then newLen - 1 else cur
  if prevLen < newLen then newLen - 1 else clamped

/-- What the template renders for the current index. -/
inductive RenderView (α : Type) where
  | noSlides
  | blank
  | slide (s : α)

/-- Embeds the render dispatch of `MinimalistTemplate` (`src/unnamed/part_004`
lines 568–583): an empty deck renders the `No slides` view, an out-of-range
index renders nothing (`renderSlide` returns `null`), otherwise the current
slide is rendered. -/
def renderTemplate (slides : List α) (cur : Nat) : RenderView α :=
  if slides.length = 0 then .noSlides
  else
    match slides[cur]? with
    | some s => .slide s
    | none => .blank

/-- Modelled from the spec: the `InsertSlide(afterIndex, newSlide)` deck-editor
operation is not under `src/` (the templates only invoke it through their
`onAdd` callback); per §4.3 it inserts `newSlide` immediately after position
`afterIndex`, or at position 0 when `afterIndex` is −1. -/
def insertSlide (slides : List α) (afterIndex : Int) (x : α) : List α :=
  if afterIndex = -1 then x :: slides
  else slides.take (afterIndex.toNat + 1) ++ [x] ++ slides.drop (afterIndex.toNat + 1)

/-- Modelled from the spec: the `DeleteSlide(index)` deck-editor operation is
not under `src/` (the templates only invoke it through their `onDelete`
callback); per §4.3 it removes the slide at `index`. -/
def deleteSlide (slides : List α) (i : Nat) : List α := slides.eraseIdx i

/-- The per-slide customization state of a `Slide` (`src/unnamed/part_004`
lines 28–31): the three optional maps become total functions into `Option`,
with the absent map embedded as the everywhere-`none` function. -/
structure SlideCustom where
  positions : String → Option (Int × Int)
  fontSizes : String → Option Int
  rotations : String → Option Int

/-- Embeds the JavaScript object spread `\x7b ...m, [k]: v \x7d`: a shallow
merge of one binding into a string-keyed map. -/
def jsSpread (m : String → Option α) (k : String) (v : α) : String → Option α :=
  fun q => if q = k then some v else m q

/-- Embeds `updateFS` of `MinimalistSlide` (`src/unnamed/part_004` lines
257–259) composed with the field replacement its `onEdit('fontSizes', …)`
callback requests. Modelled from the spec for the callback half: the
`EditField` handler that stores the merged map back on the slide is not under
`src/`; per §4.3 it replaces exactly the one field. -/
def updateFS (s : SlideCustom) (k : String) (v : Int) : SlideCustom :=
  { s with fontSizes := jsSpread s.fontSizes k v }

/-! ## Session page — `src/app/page.tsx` (`generatePresentation`, lines 92–174) -/

/-- The wizard step of the session page (`src/app/page.tsx` line 15). -/
inductive Step where
  | input
  | customize
  | generating
  | result
deriving DecidableEq

/-- The session state touched by `generatePresentation`: the wizard step, the
loading flag, the error banner text and the currently-displayed deck. -/
structure HomeState (α : Type) where
  step : Step
  loading : Bool
  error : String
  presentation : Option α

/-- Outcome of the awaited network calls inside one `generatePresentation`
run: a scrape failure, a PDF-parse failure, a generate failure, or a generate
success whose JSON body may or may not carry a `presentation` value. -/
inductive GenRun (α : Type) where
  | scrapeFail
  | pdfFail
  | genFail
  | genOk (found : Option α)

/-- Embeds `generatePresentation` of `src/app/page.tsx` (lines 92–174): each
`!res.ok` check and the missing-`presentation` check throw, the `catch` sets
the error message and returns the wizard to the input step, the success path
stores the deck and moves to the result step, and `finally` clears `loading`.
The previously stored `presentation` is only written on the success path. -/
def generatePresentationFn (r : GenRun α) (st : HomeState α) : HomeState α :=
  match r with
  | .scrapeFail =>
    { st with error := "Failed to scrape URL", step := .input, loading := false }
  | .pdfFail =>
    { st with error := "Failed to parse PDF", step := .input, loading := false }
  | .genFail =>
    { st with error := "Failed to generate presentation", step := .input, loading := false }
  | .genOk none =>
    { st with error := "Invalid response format", step := .input, loading := false }
  | .genOk (some p) =>
    { st with error := "", presentation := some p, step := .result, loading := false }

/-! ## Placeholder resolver — modelled from the spec (§4.2)

No `\x7b\x7bUSER_IMAGE_<N>\x7d\x7d` handling exists under `src/`; the whole
resolver is modelled from the specification: a recursive deep traversal of
the slide value that, in each string, resolves only the first occurrence of
the placeholder pattern (N a positive integer), replacing it with the
(N−1)-th local image reference when that index exists and leaving the string
verbatim otherwise. -/

/-- Decimal digit character for a digit value (values ≥ 9 clamp to `'9'`;
only applied below 10). -/
def digitChar : Nat → Char
  | 0 => '0' | 1 => '1' | 2 => '2' | 3 => '3' | 4 => '4'
  | 5 => '5' | 6 => '6' | 7 => '7' | 8 => '8' | _ => '9'

/-- Numeric value of a decimal digit character. -/
def charVal (c : Char) : Nat := c.toNat - 48

/-- Fuel-driven big-endian decimal rendering helper. -/
def natDigitsGo : Nat → Nat → List Char
  | 0, _ => []
  | fuel + 1, n =>
    if n < 10 then [digitChar n]
    else natDigitsGo fuel (n / 10) ++ [digitChar (n % 10)]

/-- Big-endian decimal digit characters of `n`. -/
def natDigitsBE (n : Nat) : List Char := natDigitsGo (n + 1) n

/-- Reads a big-endian run of decimal digit characters as a number. -/
def digitsToNat (ds : List Char) : Nat :=
  ds.foldl (fun a c => 10 * a + charVal c) 0

/-- Opening characters of a placeholder token. -/
def tokenPre : List Char := "\x7b\x7bUSER_IMAGE_".toList

/-- Closing characters of a placeholder token. -/
def tokenSuf : List Char := "\x7d\x7d".toList

/-- Characters of the placeholder token carrying the number `n`. -/
def tokenChars (n : Nat) : List Char := tokenPre ++ natDigitsBE n ++ tokenSuf

/-- Placeholder token `\x7b\x7bUSER_IMAGE_n\x7d\x7d` as a string. -/
def tokenStr (n : Nat) : String := String.mk (tokenChars n)

/-- Modelled from the spec: recognises a placeholder token at the head of the
character list — the opening braces and tag, one or more digits denoting a
positive integer N, and the closing braces — returning N and the characters
after the token; malformed candidates (no digits, N = 0, unmatched braces)
are not placeholders. -/
def matchTokenAt (s : List Char) : Option (Nat × List Char) :=
  if tokenPre.isPrefixOf s then
    if (s.drop tokenPre.length).takeWhile Char.isDigit ≠ []
        ∧ 1 ≤ digitsToNat ((s.drop tokenPre.length).takeWhile Char.isDigit)
        ∧ tokenSuf.isPrefixOf ((s.drop tokenPre.length).dropWhile Char.isDigit) then
      some (digitsToNat ((s.drop tokenPre.length).takeWhile Char.isDigit),
        ((s.drop tokenPre.length).dropWhile Char.isDigit).drop tokenSuf.length)
    else none
  else none

/-- Modelled from the spec: single-match-and-replace over one string — scan
for the first placeholder occurrence; when its index exists in `imgs`,
replace the token with the image reference (the remainder is kept untouched);
when the index is missing, the whole remaining string is left verbatim; with
no occurrence the string is unchanged. -/
def resolveChars (imgs : List String) : List Char → List Char
  | [] => []
  | c :: rest =>
    match matchTokenAt (c :: rest) with
    | some (n, after) =>
      match imgs[n - 1]? with
      | some img => img.toList ++ after
      | none => c :: rest
    | none => c :: resolveChars imgs rest

/-- Modelled from the spec: the string-leaf transform of the resolver. -/
def resolveString (imgs : List String) (s : String) : String :=
  String.mk (resolveChars imgs s.toList)

mutual
/-- A slide value as traversed by the resolver: strings, numbers, arrays and
records (the tagged slide variants of `src/unnamed/part_004` are records of
these). -/
inductive SVal where
  | str (s : String)
  | num (n : Int)
  | arr (xs : SList)
  | obj (fs : SFields)
/-- A list of slide values. -/
inductive SList where
  | nil
  | cons (hd : SVal) (tl : SList)
/-- The fields of a record slide value. -/
inductive SFields where
  | fnil
  | fcons (key : String) (v : SVal) (tl : SFields)
end

mutual
/-- Modelled from the spec: recursive deep traversal — strings get the
single-match-and-replace transform, arrays and records recurse, non-string
non-container values pass through unchanged. -/
def resolveVal (imgs : List String) : SVal → SVal
  | .str s => .str (resolveString imgs s)
  | .num n => .num n
  | .arr xs => .arr (resolveSList imgs xs)
  | .obj fs => .obj (resolveSFields imgs fs)
/-- Resolver traversal of an array value. -/
def resolveSList (imgs : List String) : SList → SList
  | .nil => .nil
  | .cons h t => .cons (resolveVal imgs h) (resolveSList imgs t)
/-- Resolver traversal of record fields. -/
def resolveSFields (imgs : List String) : SFields → SFields
  | .fnil => .fnil
  | .fcons k v t => .fcons k (resolveVal imgs v) (resolveSFields imgs t)
end

mutual
/-- Every string value anywhere in a slide value, in traversal order. -/
def stringLeavesV : SVal → List String
  | .str s => [s]
  | .num _ => []
  | .arr xs => stringLeavesL xs
  | .obj fs => stringLeavesF fs
/-- String leaves of an array value. -/
def stringLeavesL : SList → List String
  | .nil => []
  | .cons h t => stringLeavesV h ++ stringLeavesL t
/-- String leaves of record fields. -/
def stringLeavesF : SFields → List String
  | .fnil => []
  | .fcons _ v t => stringLeavesV v ++ stringLeavesF t
end

/-- The synthesized presentation as the resolver sees it: a title and the
slide tree (`Presentation` of `src/unnamed/part_004` lines 34–37, with each
slide as its traversable value). -/
structure PresentationV where
  title : String
  slides : SList

/-- Modelled from the spec: the resolver produces a new `Presentation`,
traversing the slide tree; it runs once per synthesis and does not mutate its
input (purity is inherent to the embedding). -/
def resolvePresentation (imgs : List String) (p : PresentationV) : PresentationV :=
  { title := p.title, slides := resolveSList imgs p.slides }

/-- Concatenation of `n` copies of the two characters `a` and space. -/
def abPairs (n : Nat) : List Char := (List.replicate n ['a', ' ']).flatten

/-- Concrete 2001-character scrape input used to exhibit the truncation
corner of the scrape content processing: 1000 copies of `a ` then `b`. -/
def cexRaw : List Char := abPairs 1000 ++ ['b']

/-! ## Theorems -/

/-! ### Helper lemmas -/

theorem renderTemplate_of_length_zero (l : List α) (cur : Nat) (h : l.length = 0) :
    renderTemplate l cur = .noSlides := by
  simp [renderTemplate, h]

/-! ### C2 — InsertSlide and the displayed index -/

/-- C2 counterexample: inserting `X` after index 0 into `[A, B]` does yield
`[A, X, B]`, but the template's reconciliation of the displayed index
(`reactCurrent`), reacting to the growth from 2 to 3 slides with the current
index at `afterIndex = 0`, jumps to index 2 (the last slide), not to
`afterIndex + 1 = 1` as the claim states. -/
theorem insertSlide_current_not_afterIndex_succ :
    insertSlide ["A", "B"] 0 "X" = ["A", "X", "B"]
    ∧ reactCurrent 2 3 0 = 2 ∧ reactCurrent 2 3 0 ≠ 1 := by
  decide

/-- C2 amended: for slides `[A, B]`, `InsertSlide` with `afterIndex` 0 and new
slide `X` yields `[A, X, B]`; the currently-displayed slide index then becomes
the last index of the grown deck (`newLength − 1 = 2`, whatever it was
before), because the template auto-navigates to the end whenever the slide
count grows — not `afterIndex + 1`. -/
theorem insertSlide_auto_navigates_to_last {α : Type} (A B X : α) (cur : Nat) :
    insertSlide [A, B] 0 X = [A, X, B] ∧ reactCurrent 2 3 cur = 2 := by
  constructor
  · simp [insertSlide]
  · simp [reactCurrent]

/-! ### C3 — DeleteSlide, index clamping and the empty deck -/

/-- C3: for every deck and valid index, `DeleteSlide` removes the slide at
that index; when the displayed index lands at or beyond the new end it is
clamped to the new last valid index, an in-range index is kept, and when the
deck becomes empty the displayed index is left at 0 and the template renders
the `No slides` state. -/
theorem deleteSlide_removes_and_clamps {α : Type} (slides : List α) (i cur : Nat)
    (hi : i < slides.length) (hcur : cur < slides.length) :
    (deleteSlide slides i).length = slides.length - 1
    ∧ deleteSlide slides i = slides.take i ++ slides.drop (i + 1)
    ∧ (0 < (deleteSlide slides i).length → (deleteSlide slides i).length ≤ cur →
        reactCurrent slides.length (deleteSlide slides i).length cur
          = (deleteSlide slides i).length - 1)
    ∧ (cur < (deleteSlide slides i).length →
        reactCurrent slides.length (deleteSlide slides i).length cur = cur)
    ∧ ((deleteSlide slides i).length = 0 →
        reactCurrent slides.length (deleteSlide slides i).length cur = 0
        ∧ renderTemplate (deleteSlide slides i)
            (reactCurrent slides.length (deleteSlide slides i).length cur)
          = RenderView.noSlides) := by
  have hlen : (deleteSlide slides i).length = slides.length - 1 :=
    List.length_eraseIdx_of_lt hi
  refine ⟨hlen, List.eraseIdx_eq_take_drop_succ slides i, ?_, ?_, ?_⟩
  · intro hpos hge
    rw [hlen] at hpos hge ⊢
    simp only [reactCurrent]
    have hnav : ¬ slides.length < slides.length - 1 := by omega
    rw [if_neg hnav, if_pos ⟨hge, hpos⟩]
  · intro hlt
    rw [hlen] at hlt ⊢
    simp only [reactCurrent]
    have hnav : ¬ slides.length < slides.length - 1 := by omega
    have hclamp : ¬ (slides.length - 1 ≤ cur ∧ 0 < slides.length - 1) := by omega
    rw [if_neg hnav, if_neg hclamp]
  · intro hzero
    have hcur0 : cur = 0 := by rw [hlen] at hzero; omega
    constructor
    · rw [hlen] at hzero ⊢
      simp only [reactCurrent]
      have hnav : ¬ slides.length < slides.length - 1 := by omega
      have hclamp : ¬ (slides.length - 1 ≤ cur ∧ 0 < slides.length - 1) := by omega
      rw [if_neg hnav, if_neg hclamp, hcur0]
    · exact renderTemplate_of_length_zero _ _ hzero

/-- C3 witness: deleting the only slide of `["A"]` with the displayed index at
0 leaves an empty deck, displayed index 0, and the `No slides` view. -/
theorem deleteSlide_removes_and_clamps_witness :
    (0 : Nat) < 1
    ∧ ((deleteSlide ["A"] 0).length = 1 - 1
      ∧ deleteSlide ["A"] 0 = List.take 0 ["A"] ++ List.drop 1 ["A"]
      ∧ (0 < (deleteSlide ["A"] 0).length → (deleteSlide ["A"] 0).length ≤ 0 →
          reactCurrent 1 (deleteSlide ["A"] 0).length 0
            = (deleteSlide ["A"] 0).length - 1)
      ∧ (0 < (deleteSlide ["A"] 0).length →
          reactCurrent 1 (deleteSlide ["A"] 0).length 0 = 0)
      ∧ ((deleteSlide ["A"] 0).length = 0 →
          reactCurrent 1 (deleteSlide ["A"] 0).length 0 = 0
          ∧ renderTemplate (deleteSlide ["A"] 0)
              (reactCurrent 1 (deleteSlide ["A"] 0).length 0)
            = RenderView.noSlides)) :=
  ⟨by decide, by
    have h := deleteSlide_removes_and_clamps ["A"] 0 0 (by decide) (by decide)
    simpa using h⟩

/-! ### C4 — SetFieldCustomization is a shallow merge -/

/-- C4: applying the `fontSize` customization for key `title` and then for key
`subtitle` on the same slide yields a `fontSizes` map containing both entries;
every other key of `fontSizes` and the whole `positions` and `rotations` maps
are untouched. -/
theorem setFontSize_shallow_merge (s : SlideCustom) (v1 v2 : Int) :
    (updateFS (updateFS s "title" v1) "subtitle" v2).fontSizes "title" = some v1
    ∧ (updateFS (updateFS s "title" v1) "subtitle" v2).fontSizes "subtitle" = some v2
    ∧ (∀ k, k ≠ "title" → k ≠ "subtitle" →
        (updateFS (updateFS s "title" v1) "subtitle" v2).fontSizes k = s.fontSizes k)
    ∧ (updateFS (updateFS s "title" v1) "subtitle" v2).positions = s.positions
    ∧ (updateFS (updateFS s "title" v1) "subtitle" v2).rotations = s.rotations := by
  refine ⟨?_, ?_, ?_, rfl, rfl⟩
  · simp [updateFS, jsSpread]
  · simp [updateFS, jsSpread]
  · intro k h1 h2
    simp [updateFS, jsSpread, h1, h2]

/-- C4 witness: concrete check on the slide with empty customization maps and
one pre-existing `fontSizes` entry for `body`. -/
theorem setFontSize_shallow_merge_witness :
    (updateFS (updateFS
        ⟨fun _ => none, fun q => if q = "body" then some 11 else none, fun _ => none⟩
        "title" 40) "subtitle" 24).fontSizes "title" = some 40
    ∧ (updateFS (updateFS
        ⟨fun _ => none, fun q => if q = "body" then some 11 else none, fun _ => none⟩
        "title" 40) "subtitle" 24).fontSizes "subtitle" = some 24
    ∧ (updateFS (updateFS
        ⟨fun _ => none, fun q => if q = "body" then some 11 else none, fun _ => none⟩
        "title" 40) "subtitle" 24).fontSizes "body" = some 11 := by
  have h := setFontSize_shallow_merge
    ⟨fun _ => none, fun q => if q = "body" then some 11 else none, fun _ => none⟩ 40 24
  exact ⟨h.1, h.2.1, by
    have := h.2.2.1 "body" (by decide) (by decide)
    simpa using this⟩

/-! ### C5 — parse failure yields a format error, success is all-or-nothing -/

/-- C5: when the cleaned model text fails to parse as JSON the generate route
returns the 500 format-error response (never a deck), and whenever it returns
success the body is exactly a value the parser produced — no partial or
degraded presentation is ever returned. -/
theorem generate_formatError_all_or_nothing (parse : List Char → Option Json) :
    (∀ t : List Char, parse (cleanGenerated (jsTrimL t)) = none →
      generatePOST parse true t = .error "Failed to generate valid presentation data" 500)
    ∧ (∀ (hasKey : Bool) (t : List Char) (v : Json),
        generatePOST parse hasKey t = .success v →
        parse (cleanGenerated (jsTrimL t)) = some v) := by
  constructor
  · intro t h
    simp [generatePOST, h]
  · intro hasKey t v h
    by_cases hk : hasKey = true
    · subst hk
      simp only [generatePOST, if_true] at h
      cases hp : parse (cleanGenerated (jsTrimL t)) with
      | some w => rw [hp] at h; cases h; rfl
      | none => rw [hp] at h; cases h
    · simp only [Bool.not_eq_true] at hk
      subst hk
      simp [generatePOST] at h

/-- C5 witness: a parser rejecting everything makes the route answer with the
500 format error on a concrete model text. -/
theorem generate_formatError_all_or_nothing_witness :
    generatePOST (fun _ => none) true ("oops".toList)
      = .error "Failed to generate valid presentation data" 500 :=
  (generate_formatError_all_or_nothing (fun _ => none)).1 ("oops".toList) rfl

/-! ### C7 — errors abort, return to the input step, leave the deck alone -/

/-- C7: every failing outcome of one `generatePresentation` run (scrape
failure, PDF-parse failure, generate failure, or a success body without a
`presentation` value) leaves the stored deck unchanged, returns the wizard to
the input step with a nonempty user-visible error message, and clears the
loading flag; the function performs a single attempt, so no retry occurs. -/
theorem generate_error_returns_to_input {α : Type} (st : HomeState α) (r : GenRun α)
    (h : r = .scrapeFail ∨ r = .pdfFail ∨ r = .genFail ∨ r = .genOk none) :
    (generatePresentationFn r st).presentation = st.presentation
    ∧ (generatePresentationFn r st).step = .input
    ∧ (generatePresentationFn r st).error ≠ ""
    ∧ (generatePresentationFn r st).loading = false := by
  rcases h with rfl | rfl | rfl | rfl <;>
    exact ⟨rfl, rfl, by simp [generatePresentationFn], rfl⟩

/-- C7 witness: a scrape failure during a run that already displays the deck
`some 7` keeps that deck, lands on the input step with a nonempty message,
and clears loading. -/
theorem generate_error_returns_to_input_witness :
    (generatePresentationFn GenRun.scrapeFail
        (⟨Step.generating, true, "", some 7⟩ : HomeState Nat)).presentation = some 7
    ∧ (generatePresentationFn GenRun.scrapeFail
        (⟨Step.generating, true, "", some 7⟩ : HomeState Nat)).step = Step.input
    ∧ (generatePresentationFn GenRun.scrapeFail
        (⟨Step.generating, true, "", some 7⟩ : HomeState Nat)).error ≠ ""
    ∧ (generatePresentationFn GenRun.scrapeFail
        (⟨Step.generating, true, "", some 7⟩ : HomeState Nat)).loading = false :=
  generate_error_returns_to_input (⟨Step.generating, true, "", some 7⟩ : HomeState Nat)
    GenRun.scrapeFail (Or.inl rfl)

/-! ### C9 — title fallback chain of the scrape route -/

/-- C9: the scraped title falls back through `og:title`, then `twitter:title`,
then the `title` element text, then the empty string, with JavaScript
truthiness (absent or empty values fall through) and a final trim. -/
theorem scrapeTitle_fallback_chain (og tw : Option String) (tt : String) :
    (∀ s, og = some s → s ≠ "" → scrapeTitle og tw tt = String.mk (jsTrimL s.toList))
    ∧ ((og = none ∨ og = some "") → ∀ s, tw = some s → s ≠ "" →
        scrapeTitle og tw tt = String.mk (jsTrimL s.toList))
    ∧ ((og = none ∨ og = some "") → (tw = none ∨ tw = some "") →
        scrapeTitle og tw tt = String.mk (jsTrimL tt.toList)) := by
  refine ⟨?_, ?_, ?_⟩
  · rintro s rfl hs
    simp [scrapeTitle, truthy, hs]
  · rintro (rfl | rfl) s rfl hs <;> simp [scrapeTitle, truthy, hs]
  · rintro (rfl | rfl) (rfl | rfl) <;>
      · by_cases ht : tt = "" <;> simp [scrapeTitle, truthy, ht]
  
/-- C9 witness: a page with `<title>Foo</title>` and neither Open Graph nor
twitter title tags yields title `Foo`. -/
theorem scrapeTitle_fallback_chain_witness :
    scrapeTitle none none "Foo" = "Foo" := by
  have h := (scrapeTitle_fallback_chain none none "Foo").2.2 (Or.inl rfl) (Or.inl rfl)
  rw [h]
  rfl

/-! ### C10 — parsed JSON is returned verbatim, with no schema validation -/

/-- C10: whenever the cleaned model text parses, the generate route returns
the parsed value verbatim as a success response — there is no check that it
carries a `presentation` field or well-formed slides. -/
theorem generate_returns_parsed_verbatim (parse : List Char → Option Json)
    (t : List Char) (v : Json) (h : parse (cleanGenerated (jsTrimL t)) = some v) :
    generatePOST parse true t = .success v := by
  simp [generatePOST, h]

/-- C10 witness: a parser producing the bare number 42 — well-formed JSON with
no `presentation` field — still gets returned as success. -/
theorem generate_returns_parsed_verbatim_witness :
    generatePOST (fun l => if l = "42".toList then some (Json.num 42) else none)
        true (" 42 ".toList)
      = .success (Json.num 42)
    ∧ hasPresentationField (Json.num 42) = false :=
  ⟨generate_returns_parsed_verbatim
      (fun l => if l = "42".toList then some (Json.num 42) else none)
      (" 42 ".toList) (Json.num 42) (by rfl),
   rfl⟩

/-! ### C6 — fence stripping in the generate route -/

theorem isPrefixOf_append_self (p r : List Char) : p.isPrefixOf (p ++ r) = true :=
  List.isPrefixOf_iff_prefix.2 (List.prefix_append p r)

theorem isSuffixOf_append_self (l suf : List Char) : suf.isSuffixOf (l ++ suf) = true :=
  List.isSuffixOf_iff_suffix.2 (List.suffix_append l suf)

theorem dropPrefixIfL_append (p r : List Char) : dropPrefixIfL p (p ++ r) = r := by
  rw [dropPrefixIfL, if_pos (isPrefixOf_append_self p r), List.drop_left]

theorem dropSuffixIfL_append (l suf : List Char) : dropSuffixIfL suf (l ++ suf) = l := by
  rw [dropSuffixIfL, if_pos (isSuffixOf_append_self l suf)]
  have h : (l ++ suf).length - suf.length = l.length := by
    rw [List.length_append]; omega
  rw [h, List.take_left]

theorem json_fence_not_prefixOf_plain (r : List Char) :
    ("```json".toList).isPrefixOf ("```\n".toList ++ r) = false := by
  by_contra h
  rw [Bool.not_eq_false] at h
  obtain ⟨t, ht⟩ := List.isPrefixOf_iff_prefix.1 h
  have h4 := congrArg (List.take 4) ht
  rw [List.take_append_of_le_length (by decide),
    List.take_append_of_le_length (by decide)] at h4
  exact absurd h4 (by decide)

theorem cleanGenerated_json_fence (body : List Char) :
    cleanGenerated ("```json\n".toList ++ body ++ "\n```".toList) = body := by
  have hsplit : "```json\n".toList = "```json".toList ++ "\n".toList := by decide
  have h7 : ("```json".toList).isPrefixOf
      ("```json\n".toList ++ body ++ "\n```".toList) = true := by
    rw [List.append_assoc, hsplit, List.append_assoc]
    exact isPrefixOf_append_self _ _
  rw [cleanGenerated, if_pos h7, List.append_assoc, dropPrefixIfL_append,
    dropSuffixIfL_append]

theorem cleanGenerated_plain_fence (body : List Char) :
    cleanGenerated ("```\n".toList ++ body ++ "\n```".toList) = body := by
  have hsplit : "```\n".toList = "```".toList ++ "\n".toList := by decide
  have h3 : ("```".toList).isPrefixOf
      ("```\n".toList ++ body ++ "\n```".toList) = true := by
    rw [List.append_assoc, hsplit, List.append_assoc]
    exact isPrefixOf_append_self _ _
  have h7 : ("```json".toList).isPrefixOf
      ("```\n".toList ++ body ++ "\n```".toList) = false := by
    rw [List.append_assoc]
    exact json_fence_not_prefixOf_plain _
  rw [cleanGenerated, if_neg (by simp [h7]), if_pos h3, List.append_assoc,
    dropPrefixIfL_append, dropSuffixIfL_append]

/-- C6 counterexample: `"```js\n1\n```"` starts with neither delimiter form
(`"```json\n"` nor `"```\n"`), yet the cleanup does not parse it unchanged —
it strips the trailing `"\n```"`, leaving `"```js\n1"`. -/
theorem cleanGenerated_modifies_nonDelimited :
    ("```json\n".toList).isPrefixOf ("```js\n1\n```".toList) = false
    ∧ ("```\n".toList).isPrefixOf ("```js\n1\n```".toList) = false
    ∧ cleanGenerated ("```js\n1\n```".toList) = "```js\n1".toList
    ∧ cleanGenerated ("```js\n1\n```".toList) ≠ "```js\n1\n```".toList := by
  decide

/-- C6 amended: for texts of the forms `"```json\n" + body + "\n```"` and
`"```\n" + body + "\n```"` the delimiters are removed and `body` is what gets
parsed; texts not starting with three backticks are parsed unchanged (texts
starting with three backticks but not a full delimiter may still have a
leading delimiter and/or a trailing `"\n```"` stripped independently). -/
theorem cleanGenerated_strips_fences (body : List Char) :
    cleanGenerated ("```json\n".toList ++ body ++ "\n```".toList) = body
    ∧ cleanGenerated ("```\n".toList ++ body ++ "\n```".toList) = body
    ∧ ∀ s : List Char, ("```".toList).isPrefixOf s = false → cleanGenerated s = s := by
  refine ⟨cleanGenerated_json_fence body, cleanGenerated_plain_fence body, ?_⟩
  intro s h
  have h7 : ("```json".toList).isPrefixOf s = false := by
    by_contra hh
    rw [Bool.not_eq_false] at hh
    have hpre : ("```".toList) <+: ("```json".toList) := by decide
    have := List.isPrefixOf_iff_prefix.2
      (hpre.trans (List.isPrefixOf_iff_prefix.1 hh))
    rw [h] at this
    cases this
  rw [cleanGenerated, if_neg (by rw [h7]; decide), if_neg (by rw [h]; decide)]

/-- C6 amended witness: concrete body and a concrete text with no fence. -/
theorem cleanGenerated_strips_fences_witness :
    cleanGenerated ("```json\n".toList ++ "A".toList ++ "\n```".toList) = "A".toList
    ∧ ("```".toList).isPrefixOf ("hi".toList) = false
    ∧ cleanGenerated ("hi".toList) = "hi".toList :=
  ⟨(cleanGenerated_strips_fences ("A".toList)).1, by decide,
   (cleanGenerated_strips_fences ("A".toList)).2.2 ("hi".toList) (by decide)⟩

/-! ### C8 — scrape content: collapsed, bounded, and the truncation corner -/

theorem noTwoWs_nil : noTwoWs [] = true := rfl

theorem noTwoWs_singleton (a : Char) : noTwoWs [a] = true := rfl

theorem noTwoWs_cons_cons_iff (a b : Char) (r : List Char) :
    noTwoWs (a :: b :: r) = true
      ↔ (a.isWhitespace && b.isWhitespace) = false ∧ noTwoWs (b :: r) = true := by
  show ((!(a.isWhitespace && b.isWhitespace)) && noTwoWs (b :: r)) = true ↔ _
  rw [Bool.and_eq_true, Bool.not_eq_true']

theorem noTwoWs_tail {a : Char} {l : List Char} (h : noTwoWs (a :: l) = true) :
    noTwoWs l = true := by
  cases l with
  | nil => rfl
  | cons b r => exact ((noTwoWs_cons_cons_iff a b r).1 h).2

theorem noTwoWs_cons_of_nonws {a : Char} {l : List Char} (ha : a.isWhitespace = false)
    (h : noTwoWs l = true) : noTwoWs (a :: l) = true := by
  cases l with
  | nil => rfl
  | cons b r => exact (noTwoWs_cons_cons_iff a b r).2 ⟨by simp [ha], h⟩

theorem noTwoWs_cons_cons_of_nonws {a b : Char} {l : List Char}
    (hb : b.isWhitespace = false) (h : noTwoWs (b :: l) = true) :
    noTwoWs (a :: b :: l) = true :=
  (noTwoWs_cons_cons_iff a b l).2 ⟨by simp [hb], h⟩

theorem collapseWs_head_nonws (b : Char) (r : List Char) (hb : b.isWhitespace = false) :
    ∃ t, collapseWs (b :: r) = b :: t := by
  cases r with
  | nil => exact ⟨[], by simp [collapseWs, hb]⟩
  | cons c r' => exact ⟨collapseWs (c :: r'), by simp [collapseWs, hb]⟩

theorem noTwoWs_collapseWs (l : List Char) : noTwoWs (collapseWs l) = true := by
  induction l with
  | nil => rfl
  | cons a t ih =>
    cases t with
    | nil =>
      by_cases ha : a.isWhitespace = true <;>
        simp [collapseWs, ha, noTwoWs_singleton]
    | cons b r =>
      by_cases ha : a.isWhitespace = true
      · by_cases hb : b.isWhitespace = true
        · rw [show collapseWs (a :: b :: r) = collapseWs (b :: r) from by
            simp [collapseWs, ha, hb]]
          exact ih
        · rw [Bool.not_eq_true] at hb
          rw [show collapseWs (a :: b :: r) = ' ' :: collapseWs (b :: r) from by
            simp [collapseWs, ha, hb]]
          obtain ⟨t', ht'⟩ := collapseWs_head_nonws b r hb
          rw [ht']
          exact noTwoWs_cons_cons_of_nonws hb (ht' ▸ ih)
      · rw [Bool.not_eq_true] at ha
        rw [show collapseWs (a :: b :: r) = a :: collapseWs (b :: r) from by
          simp [collapseWs, ha]]
        exact noTwoWs_cons_of_nonws ha ih

theorem noTwoWs_take (l : List Char) : ∀ n : Nat, noTwoWs l = true →
    noTwoWs (l.take n) = true := by
  induction l with
  | nil => intro n _; simp [noTwoWs_nil]
  | cons a t ih =>
    intro n h
    cases n with
    | zero => exact noTwoWs_nil
    | succ m =>
      rw [List.take_succ_cons]
      cases t with
      | nil => simpa using noTwoWs_singleton a
      | cons b r =>
        cases m with
        | zero => simpa using noTwoWs_singleton a
        | succ k =>
          obtain ⟨hpair, htail⟩ := (noTwoWs_cons_cons_iff a b r).1 h
          have h' := ih (k + 1) htail
          rw [List.take_succ_cons] at h'
          rw [List.take_succ_cons]
          exact (noTwoWs_cons_cons_iff a b (r.take k)).2 ⟨hpair, h'⟩

theorem noTwoWs_dropWhile (p : Char → Bool) (l : List Char) (h : noTwoWs l = true) :
    noTwoWs (l.dropWhile p) = true := by
  induction l with
  | nil => exact h
  | cons a t ih =>
    rw [List.dropWhile_cons]
    split
    · exact ih (noTwoWs_tail h)
    · exact h

theorem rstripWs_eq_take (l : List Char) : ∃ k, rstripWs l = l.take k := by
  induction l with
  | nil => exact ⟨0, rfl⟩
  | cons a t ih =>
    obtain ⟨k, hk⟩ := ih
    by_cases hr : rstripWs t = []
    · by_cases ha : a.isWhitespace = true
      · exact ⟨0, by simp [rstripWs, hr, ha]⟩
      · rw [Bool.not_eq_true] at ha
        exact ⟨1, by simp [rstripWs, hr, ha]⟩
    · refine ⟨k + 1, ?_⟩
      rw [show rstripWs (a :: t) = a :: rstripWs t from by simp [rstripWs, hr],
        List.take_succ_cons, hk]

theorem rstripWs_getLast_not_ws (l : List Char) :
    ∀ c : Char, (rstripWs l).getLast? = some c → c.isWhitespace = false := by
  induction l with
  | nil => intro c hc; simp [rstripWs] at hc
  | cons a t ih =>
    intro c hc
    by_cases hr : rstripWs t = []
    · by_cases ha : a.isWhitespace = true
      · rw [show rstripWs (a :: t) = [] from by simp [rstripWs, hr, ha]] at hc
        simp at hc
      · rw [Bool.not_eq_true] at ha
        rw [show rstripWs (a :: t) = [a] from by simp [rstripWs, hr, ha]] at hc
        simp at hc
        rwa [← hc]
    · rw [show rstripWs (a :: t) = a :: rstripWs t from by simp [rstripWs, hr]] at hc
      cases hr' : rstripWs t with
      | nil => exact absurd hr' hr
      | cons d r'' =>
        rw [hr', List.getLast?_cons_cons] at hc
        exact ih c (by rwa [hr'])

theorem rstripWs_eq_self_of_last (l : List Char) (c : Char) (hl : l.getLast? = some c)
    (hc : c.isWhitespace = false) : rstripWs l = l := by
  induction l with
  | nil => rfl
  | cons a t ih =>
    cases t with
    | nil =>
      simp only [List.getLast?_singleton, Option.some.injEq] at hl
      subst hl
      simp [rstripWs, hc]
    | cons b r =>
      rw [List.getLast?_cons_cons] at hl
      have ht := ih hl
      have hne : rstripWs (b :: r) ≠ [] := by rw [ht]; simp
      rw [show rstripWs (a :: b :: r)
          = if rstripWs (b :: r) = [] then (if a.isWhitespace then [] else [a])
            else a :: rstripWs (b :: r) from rfl, if_neg hne, ht]

theorem dropWhile_head_not (p : Char → Bool) (l : List Char) :
    ∀ c : Char, (l.dropWhile p).head? = some c → p c = false := by
  induction l with
  | nil => intro c hc; simp at hc
  | cons a t ih =>
    intro c hc
    rw [List.dropWhile_cons] at hc
    split at hc
    · exact ih c hc
    · next hpa =>
      simp at hc
      subst hc
      simpa using hpa

theorem take_head_eq (l : List Char) (n : Nat) (c : Char)
    (h : (l.take n).head? = some c) : l.head? = some c := by
  cases l <;> cases n <;> simp_all

/-- C8 amended: the scraped content is at most 2000 characters, contains no
two adjacent whitespace characters, and never starts with whitespace; when
the collapsed-and-trimmed text fits in 2000 characters it also never ends
with whitespace, but a truncation at 2000 characters may leave one trailing
space (see the counterexample). -/
theorem scrapeContent_collapsed_bounded (raw : List Char) :
    (scrapeContent raw).length ≤ 2000
    ∧ noTwoWs (scrapeContent raw) = true
    ∧ (∀ c, (scrapeContent raw).head? = some c → c.isWhitespace = false)
    ∧ ((jsTrimL (collapseWs raw)).length ≤ 2000 →
        ∀ c, (scrapeContent raw).getLast? = some c → c.isWhitespace = false) := by
  refine ⟨?_, ?_, ?_, ?_⟩
  · rw [scrapeContent, List.length_take]
    omega
  · have h1 := noTwoWs_collapseWs raw
    have h2 := noTwoWs_dropWhile Char.isWhitespace _ h1
    obtain ⟨k, hk⟩ := rstripWs_eq_take ((collapseWs raw).dropWhile Char.isWhitespace)
    have h3 : noTwoWs (jsTrimL (collapseWs raw)) = true := by
      rw [jsTrimL, hk]
      exact noTwoWs_take _ k h2
    exact noTwoWs_take _ 2000 h3
  · intro c hc
    have hc' := take_head_eq _ 2000 c hc
    rw [jsTrimL] at hc'
    obtain ⟨k, hk⟩ := rstripWs_eq_take ((collapseWs raw).dropWhile Char.isWhitespace)
    rw [hk] at hc'
    have hc'' := take_head_eq _ k c hc'
    exact dropWhile_head_not _ _ c hc''
  · intro hlen c hc
    rw [scrapeContent, List.take_of_length_le hlen, jsTrimL] at hc
    exact rstripWs_getLast_not_ws _ c hc

/-- C8 amended witness: a concrete short input whose scraped content is
nonempty, collapsed and fully trimmed. -/
theorem scrapeContent_collapsed_bounded_witness :
    (scrapeContent ("  hello   world  ".toList)).length ≤ 2000
    ∧ noTwoWs (scrapeContent ("  hello   world  ".toList)) = true
    ∧ ((scrapeContent ("  hello   world  ".toList)).head? = some 'h'
        ∧ 'h'.isWhitespace = false)
    ∧ ((jsTrimL (collapseWs ("  hello   world  ".toList))).length ≤ 2000
        ∧ (scrapeContent ("  hello   world  ".toList)).getLast? = some 'd'
        ∧ 'd'.isWhitespace = false) := by
  have h := scrapeContent_collapsed_bounded ("  hello   world  ".toList)
  refine ⟨h.1, h.2.1, ⟨by decide, h.2.2.1 'h' (by decide)⟩, by decide,
    by decide, h.2.2.2 (by decide) 'd' (by decide)⟩

theorem abPairs_zero : abPairs 0 = [] := rfl

theorem abPairs_succ (n : Nat) : abPairs (n + 1) = 'a' :: ' ' :: abPairs n := by
  simp [abPairs, List.replicate_succ]

theorem abPairs_head (n : Nat) :
    ∃ c t, abPairs n ++ ['b'] = c :: t ∧ c.isWhitespace = false := by
  cases n with
  | zero => exact ⟨'b', [], rfl, by decide⟩
  | succ m =>
    refine ⟨'a', ' ' :: (abPairs m ++ ['b']), ?_, by decide⟩
    rw [abPairs_succ]
    simp

theorem abPairs_length (n : Nat) : (abPairs n).length = 2 * n := by
  induction n with
  | zero => rfl
  | succ m ih => rw [abPairs_succ]; simp [ih]; omega

theorem abPairs_ends_space (n : Nat) (h : 1 ≤ n) : ∃ t, abPairs n = t ++ [' '] := by
  induction n with
  | zero => omega
  | succ m ih =>
    cases m with
    | zero => exact ⟨['a'], by rw [abPairs_succ, abPairs_zero]; rfl⟩
    | succ k =>
      obtain ⟨t, ht⟩ := ih (by omega)
      exact ⟨'a' :: ' ' :: t, by rw [abPairs_succ, ht]; simp⟩

theorem collapseWs_abPairs (n : Nat) :
    collapseWs (abPairs n ++ ['b']) = abPairs n ++ ['b'] := by
  induction n with
  | zero => decide
  | succ m ih =>
    obtain ⟨c, t, hct, hc⟩ := abPairs_head m
    have ih' : collapseWs (c :: t) = c :: t := by rw [← hct]; exact ih
    rw [abPairs_succ, List.cons_append, List.cons_append, hct]
    rw [show collapseWs ('a' :: ' ' :: c :: t) = 'a' :: collapseWs (' ' :: c :: t) from by
      rfl]
    rw [show collapseWs (' ' :: c :: t)
        = if (' ').isWhitespace then
            (if c.isWhitespace then collapseWs (c :: t) else ' ' :: collapseWs (c :: t))
          else ' ' :: collapseWs (c :: t) from rfl]
    rw [if_pos (by decide), if_neg (by simp [hc]), ih']

/-- C8 counterexample: on the 2001-character input `a a … a b` (1000 pairs
`a␣` then `b`) the scrape post-processing — collapse, trim, then truncate at
2000 — returns a content string whose last character is a space, so the
output is not trimmed as the claim states. -/
theorem scrapeContent_not_trimmed :
    (scrapeContent cexRaw).getLast? = some ' ' ∧ (' ').isWhitespace = true := by
  refine ⟨?_, by decide⟩
  have hcol : collapseWs cexRaw = cexRaw := collapseWs_abPairs 1000
  have hlast : cexRaw.getLast? = some 'b' := by
    rw [show cexRaw = abPairs 1000 ++ ['b'] from rfl]
    exact List.getLast?_concat _
  have hdrop : cexRaw.dropWhile Char.isWhitespace = cexRaw := by
    obtain ⟨c, t, hct, hc⟩ := abPairs_head 1000
    rw [show cexRaw = abPairs 1000 ++ ['b'] from rfl, hct, List.dropWhile_cons,
      if_neg (by simp [hc])]
  have htrim : jsTrimL cexRaw = cexRaw := by
    rw [jsTrimL, hdrop]
    exact rstripWs_eq_self_of_last _ 'b' hlast (by decide)
  have hlen : (abPairs 1000).length = 2000 := by rw [abPairs_length]
  have htake : cexRaw.take 2000 = abPairs 1000 := by
    rw [show cexRaw = abPairs 1000 ++ ['b'] from rfl,
      List.take_append_of_le_length (by rw [hlen]),
      List.take_of_length_le (by rw [hlen])]
  rw [scrapeContent, hcol, htrim, htake]
  obtain ⟨t, ht⟩ := abPairs_ends_space 1000 (by omega)
  rw [ht]
  exact List.getLast?_concat _

/-! ### C1 — placeholder resolution -/

theorem charVal_digitChar (d : Nat) (h : d < 10) : charVal (digitChar d) = d := by
  interval_cases d <;> decide

theorem isDigit_digitChar (d : Nat) (h : d < 10) : (digitChar d).isDigit = true := by
  interval_cases d <;> decide

theorem digitsToNat_append_single (A : List Char) (d : Char) :
    digitsToNat (A ++ [d]) = 10 * digitsToNat A + charVal d := by
  simp [digitsToNat, List.foldl_append]

theorem natDigitsGo_spec : ∀ fuel n : Nat, n < fuel →
    digitsToNat (natDigitsGo fuel n) = n
    ∧ natDigitsGo fuel n ≠ []
    ∧ ∀ c ∈ natDigitsGo fuel n, c.isDigit = true := by
  intro fuel
  induction fuel with
  | zero => intro n h; omega
  | succ f ih =>
    intro n h
    by_cases h10 : n < 10
    · rw [show natDigitsGo (f + 1) n = [digitChar n] from by simp [natDigitsGo, h10]]
      refine ⟨?_, by simp, ?_⟩
      · simp [digitsToNat, charVal_digitChar n h10]
      · intro c hc
        simp at hc
        subst hc
        exact isDigit_digitChar n h10
    · have hdiv : n / 10 < n := Nat.div_lt_self (by omega) (by omega)
      have hrec : n / 10 < f := by omega
      obtain ⟨ih1, ih2, ih3⟩ := ih (n / 10) hrec
      rw [show natDigitsGo (f + 1) n = natDigitsGo f (n / 10) ++ [digitChar (n % 10)]
        from by simp [natDigitsGo, h10]]
      refine ⟨?_, by simp, ?_⟩
      · rw [digitsToNat_append_single, ih1,
          charVal_digitChar _ (Nat.mod_lt _ (by omega))]
        omega
      · intro c hc
        rw [List.mem_append] at hc
        rcases hc with hc | hc
        · exact ih3 c hc
        · simp at hc
          subst hc
          exact isDigit_digitChar _ (Nat.mod_lt _ (by omega))

theorem natDigitsBE_spec (n : Nat) :
    digitsToNat (natDigitsBE n) = n
    ∧ natDigitsBE n ≠ []
    ∧ ∀ c ∈ natDigitsBE n, c.isDigit = true :=
  natDigitsGo_spec (n + 1) n (Nat.lt_succ_self n)

theorem takeWhile_digits_append (ds : List Char) (hds : ∀ c ∈ ds, c.isDigit = true) :
    (ds ++ tokenSuf).takeWhile Char.isDigit = ds
    ∧ (ds ++ tokenSuf).dropWhile Char.isDigit = tokenSuf := by
  induction ds with
  | nil => constructor <;> decide
  | cons c t ih =>
    have hc := hds c (List.mem_cons_self c t)
    have ht : ∀ x ∈ t, x.isDigit = true := fun x hx => hds x (List.mem_cons_of_mem c hx)
    obtain ⟨ih1, ih2⟩ := ih ht
    constructor
    · rw [List.cons_append, List.takeWhile_cons, hc]
      simp [ih1]
    · rw [List.cons_append, List.dropWhile_cons]
      simp [hc, ih2]

theorem matchTokenAt_tokenChars (n : Nat) (h : 1 ≤ n) :
    matchTokenAt (tokenChars n) = some (n, []) := by
  obtain ⟨hval, hne, hdig⟩ := natDigitsBE_spec n
  have hpre : tokenPre.isPrefixOf (tokenChars n) = true := by
    rw [tokenChars, List.append_assoc]
    exact isPrefixOf_append_self _ _
  have hdrop : (tokenChars n).drop tokenPre.length = natDigitsBE n ++ tokenSuf := by
    rw [tokenChars, List.append_assoc, List.drop_left]
  obtain ⟨htw, hdw⟩ := takeWhile_digits_append (natDigitsBE n) hdig
  rw [matchTokenAt, if_pos hpre, hdrop, htw, hdw]
  rw [if_pos ⟨htw ▸ hne, by rw [hval]; exact h,
    (List.isPrefixOf_iff_prefix).2 (List.prefix_refl _)⟩]
  rw [hval, List.drop_length]

theorem string_mk_toList (s : String) : String.mk s.toList = s := rfl

theorem resolveChars_tokenChars (imgs : List String) (n : Nat) (h : 1 ≤ n) :
    resolveChars imgs (tokenChars n)
      = match imgs[n - 1]? with
        | some img => img.toList
        | none => tokenChars n := by
  have hsplit : tokenChars n
      = '\x7b' :: ("\x7bUSER_IMAGE_".toList ++ (natDigitsBE n ++ tokenSuf)) := by
    rw [tokenChars, tokenPre, List.append_assoc]
    rfl
  rw [hsplit]
  rw [show resolveChars imgs
      ('\x7b' :: ("\x7bUSER_IMAGE_".toList ++ (natDigitsBE n ++ tokenSuf)))
      = match matchTokenAt
          ('\x7b' :: ("\x7bUSER_IMAGE_".toList ++ (natDigitsBE n ++ tokenSuf))) with
        | some (m, after) =>
          (match imgs[m - 1]? with
           | some img => img.toList ++ after
           | none =>
             '\x7b' :: ("\x7bUSER_IMAGE_".toList ++ (natDigitsBE n ++ tokenSuf)))
        | none =>
          '\x7b' :: resolveChars imgs
            ("\x7bUSER_IMAGE_".toList ++ (natDigitsBE n ++ tokenSuf)) from rfl]
  rw [← hsplit, matchTokenAt_tokenChars n h]
  cases himg : imgs[n - 1]? with
  | some img => simp [himg]
  | none => simp [himg, ← hsplit]

theorem resolveString_tokenStr (imgs : List String) (n : Nat) (h : 1 ≤ n) :
    resolveString imgs (tokenStr n) = (imgs[n - 1]?).getD (tokenStr n) := by
  rw [resolveString, tokenStr]
  rw [show (String.mk (tokenChars n)).toList = tokenChars n from rfl]
  rw [resolveChars_tokenChars imgs n h]
  cases himg : imgs[n - 1]? with
  | some img => simp [string_mk_toList]
  | none => simp [tokenStr]

mutual
theorem stringLeavesV_resolve (imgs : List String) :
    ∀ v : SVal, stringLeavesV (resolveVal imgs v)
      = (stringLeavesV v).map (resolveString imgs)
  | .str s => by simp [resolveVal, stringLeavesV]
  | .num n => by simp [resolveVal, stringLeavesV]
  | .arr xs => by
    simp only [resolveVal, stringLeavesV]
    exact stringLeavesL_resolve imgs xs
  | .obj fs => by
    simp only [resolveVal, stringLeavesV]
    exact stringLeavesF_resolve imgs fs
theorem stringLeavesL_resolve (imgs : List String) :
    ∀ xs : SList, stringLeavesL (resolveSList imgs xs)
      = (stringLeavesL xs).map (resolveString imgs)
  | .nil => by simp [resolveSList, stringLeavesL]
  | .cons h t => by
    simp only [resolveSList, stringLeavesL, List.map_append]
    rw [stringLeavesV_resolve imgs h, stringLeavesL_resolve imgs t]
theorem stringLeavesF_resolve (imgs : List String) :
    ∀ fs : SFields, stringLeavesF (resolveSFields imgs fs)
      = (stringLeavesF fs).map (resolveString imgs)
  | .fnil => by simp [resolveSFields, stringLeavesF]
  | .fcons k v t => by
    simp only [resolveSFields, stringLeavesF, List.map_append]
    rw [stringLeavesV_resolve imgs v, stringLeavesF_resolve imgs t]
end

/-- C1: for every image list and every positive N, resolving the placeholder
token with number N yields the (N−1)-th image reference when that index
exists and the token verbatim otherwise; and resolution transforms a
presentation by applying exactly this string transform to every string value
anywhere in the slide tree, leaving the shape (and the title) unchanged — the
input value itself is never mutated, the resolver being a pure function
returning a new presentation. -/
theorem placeholderResolution_resolves_tokens (imgs : List String) (n : Nat)
    (h : 1 ≤ n) :
    resolveString imgs (tokenStr n) = (imgs[n - 1]?).getD (tokenStr n)
    ∧ ∀ p : PresentationV,
        (resolvePresentation imgs p).title = p.title
        ∧ stringLeavesL (resolvePresentation imgs p).slides
          = (stringLeavesL p.slides).map (resolveString imgs) := by
  refine ⟨resolveString_tokenStr imgs n h, fun p => ⟨rfl, ?_⟩⟩
  exact stringLeavesL_resolve imgs p.slides

/-- C1 witness: with two images, token 2 resolves to the second image, token
5 is left verbatim, and on a concrete presentation holding token 2 in a
nested record the string leaves are mapped accordingly. -/
theorem placeholderResolution_resolves_tokens_witness :
    resolveString ["one.png", "two.png"] (tokenStr 2) = "two.png"
    ∧ resolveString ["one.png", "two.png"] (tokenStr 5) = tokenStr 5
    ∧ stringLeavesL (resolvePresentation ["one.png", "two.png"]
        ⟨"Deck", .cons (.obj (.fcons "image" (.str (tokenStr 2)) .fnil)) .nil⟩).slides
      = (stringLeavesL (SList.cons
          (.obj (.fcons "image" (.str (tokenStr 2)) .fnil)) .nil)).map
          (resolveString ["one.png", "two.png"])
    ∧ stringLeavesL (resolvePresentation ["one.png", "two.png"]
        ⟨"Deck", .cons (.obj (.fcons "image" (.str (tokenStr 2)) .fnil)) .nil⟩).slides
      = ["two.png"] := by
  refine ⟨?_, ?_, ?_, ?_⟩
  · rw [(placeholderResolution_resolves_tokens ["one.png", "two.png"] 2 (by decide)).1]
    decide
  · rw [(placeholderResolution_resolves_tokens ["one.png", "two.png"] 5 (by decide)).1]
    decide
  · exact ((placeholderResolution_resolves_tokens ["one.png", "two.png"] 2
      (by decide)).2
      ⟨"Deck", .cons (.obj (.fcons "image" (.str (tokenStr 2)) .fnil)) .nil⟩).2
  · decide
